import Mathlib

/-!
Verification of the relay and routing engine of the `shoes` multi-protocol
proxy server against its specification.

The library entry points (`start_server`, `start_servers`) are embedded
directly from `src/lib.rs`.  The relay, chain, selector and session-manager
components are declared in `lib.rs` as modules whose bodies are not part of
the provided sources, so they are modelled from the specification text, as
marked on each definition.
-/

namespace Shoes

/-! ## Embedding of `src/lib.rs` -/

/-- Transport kinds of `config::Transport` consulted by `start_server`. -/
inductive Transport
  | Tcp
  | Quic
  | Udp
deriving DecidableEq, Repr

/-- `config::ServerConfig`; only the `transport` field is consulted by
`start_server` in `lib.rs`, so only that field is embedded. -/
structure ServerConfig where
  transport : Transport
deriving DecidableEq, Repr

/-- `std::io::Error`, reduced to its message as produced by
`std::io::Error::other`. -/
structure IoErr where
  msg : String
deriving DecidableEq, Repr

/-- The environment of externally defined server starters:
`tcp::tcp_server::start_tcp_servers` and `quic_server::start_quic_servers`.
Join handles are abstracted as natural-number task identifiers. -/
structure StartEnv where
  startTcpServers : ServerConfig → Except IoErr (List Nat)
  startQuicServers : ServerConfig → Except IoErr (List Nat)

/-- `start_server` from `src/lib.rs` lines 238-246: dispatch on the
transport; the `Udp` arm returns an error without calling any starter. -/
def start_server (env : StartEnv) (config : ServerConfig) : Except IoErr (List Nat) :=
  match config.transport with
  | .Tcp => env.startTcpServers config
  | .Quic => env.startQuicServers config
  | .Udp => .error ⟨"UDP transport is not yet implemented"⟩

/-- `start_servers` from `src/lib.rs` lines 279-287: start each config in
slice order, extending an accumulator of handles; the `?` on a failing
`start_server` returns that error at once, dropping the accumulator. -/
def start_servers (env : StartEnv) : List ServerConfig → Except IoErr (List Nat)
  | [] => .ok []
  | c :: rest =>
    match start_server env c with
    | .error e => .error e
    | .ok hs =>
      match start_servers env rest with
      | .error e => .error e
      | .ok hs2 => .ok (hs ++ hs2)

/-- The handles of the tasks actually spawned by a `start_servers` run:
every successful `start_server` call before the first failure has spawned
its tasks, whether or not the handles are ever returned to the caller. -/
def spawnedHandles (env : StartEnv) : List ServerConfig → List Nat
  | [] => []
  | c :: rest =>
    match start_server env c with
    | .error _ => []
    | .ok hs => hs ++ spawnedHandles env rest

/-- The handle list of a successful start, `[]` for a failed one. -/
def okHandles (r : Except IoErr (List Nat)) : List Nat :=
  match r with
  | .ok hs => hs
  | .error _ => []

/-! ## Client Proxy Selector

Modelled from the spec: `client_proxy_selector` is declared in `lib.rs`
but its body is not in the provided sources.  Spec §4.6: rules are
matcher + action pairs evaluated in strict configured order, first match
wins, and with no match and no default the connection is rejected. -/

/-- Modelled from the spec: matcher kinds of a routing `Rule`
(§3: exact host, domain suffix, CIDR, default). -/
inductive Matcher
  | exactHost (h : String)
  | domainSuffix (s : String)
  | cidr (net : Nat) (maskBits : Nat)
  | defaultMatch
deriving DecidableEq, Repr

/-- Modelled from the spec: the action of a `Rule`
(§3: use Chain, reject, direct connect). -/
inductive RuleAction
  | useChain (chainIdx : Nat)
  | reject
  | direct
deriving DecidableEq, Repr

/-- Modelled from the spec: one routing rule. -/
structure Rule where
  matcher : Matcher
  action : RuleAction
deriving DecidableEq, Repr

/-- Modelled from the spec: a negotiated target address — either a
hostname or an IPv4 address given as its 32-bit value. -/
inductive TargetAddr
  | hostname (h : String)
  | ip (v : Nat)
deriving DecidableEq, Repr

/-- Modelled from the spec: whether one matcher matches a target address.
A CIDR with mask length `m` matches when the top `m` bits agree. -/
def matcherMatches : Matcher → TargetAddr → Bool
  | .exactHost h, .hostname t => t == h
  | .exactHost _, .ip _ => false
  | .domainSuffix s, .hostname t => t.endsWith s
  | .domainSuffix _, .ip _ => false
  | .cidr net m, .ip v => v / 2 ^ (32 - m) == net / 2 ^ (32 - m)
  | .cidr _ _, .hostname _ => false
  | .defaultMatch, _ => true

/-- Modelled from the spec: the Selector walks the configured rule list in
order and returns the action of the first rule whose matcher matches;
when no rule matches it fails closed with `reject`. -/
def selectAction : List Rule → TargetAddr → RuleAction
  | [], _ => .reject
  | r :: rest, t =>
    if matcherMatches r.matcher t then r.action else selectAction rest t

/-! ## Error taxonomy -/

/-- Modelled from the spec: the error taxonomy of §7. -/
inductive CoreError
  | transportError
  | handshakeError
  | protocolViolation
  | resourceExhausted
  | timeoutExceeded
deriving DecidableEq, Repr

/-! ## Byte Relay

Modelled from the spec: `copy_bidirectional` is declared in `lib.rs` but
its body is not in the provided sources.  Spec §4.1: each direction reads
a bounded buffer, then fully writes it before reading further; the result
is the bytes transferred per direction. -/

/-- Modelled from the spec: one direction of the Byte Relay copy loop —
read at most `bufSize` bytes of the source into the bounded buffer, fully
write them to the destination and add them to the byte counter, then
repeat until the source ends.  Returns the bytes written to the
destination and the reported counter. -/
def copyLoop (bufSize : Nat) (hpos : 0 < bufSize) (src : List Nat) : List Nat × Nat :=
  if hs : src = [] then ([], 0)
  else
    let r := copyLoop bufSize hpos (src.drop bufSize)
    (src.take bufSize ++ r.1, (src.take bufSize).length + r.2)
termination_by src.length
decreasing_by
  have hlen : 0 < src.length := List.length_pos.mpr hs
  simp only [List.length_drop]
  omega

/-- The per-direction byte counters the Byte Relay reports. -/
structure RelayCounters where
  aToB : Nat
  bToA : Nat
deriving DecidableEq, Repr

/-- The outcome of a Byte Relay run: the bytes each side received and the
reported counters. -/
structure RelayOutcome where
  writtenToB : List Nat
  writtenToA : List Nat
  counters : RelayCounters
deriving DecidableEq, Repr

/-- Modelled from the spec: the Byte Relay copies A→B and B→A (in an
error-free execution each direction just runs its copy loop to the end)
and reports the two byte counters. -/
def copy_bidirectional (bufSize : Nat) (hpos : 0 < bufSize)
    (aSrc bSrc : List Nat) : RelayOutcome :=
  let ra := copyLoop bufSize hpos aSrc
  let rb := copyLoop bufSize hpos bSrc
  ⟨ra.1, rb.1, ⟨ra.2, rb.2⟩⟩

/-! ## Message Relay

Modelled from the spec: `copy_bidirectional_message` is declared in
`lib.rs` but its body is not in the provided sources.  Spec §4.2: one
message is read per side and forwarded unmodified, preserving boundaries
and order; an oversized message aborts the relay with a protocol error. -/

/-- Modelled from the spec: the message-size check of the Message Relay;
`none` means no maximum is configured. -/
def oversized (maxSize : Option Nat) (m : List Nat) : Bool :=
  match maxSize with
  | none => false
  | some mx => mx < m.length

/-- Modelled from the spec: one direction of the Message Relay — read one
message at a time and forward it unmodified; a message exceeding the
configured maximum aborts the relay with a protocol error before that
message is forwarded or buffered.  Returns the messages delivered to the
destination and the abort error, if any. -/
def relayMessages (maxSize : Option Nat) :
    List (List Nat) → List (List Nat) × Option CoreError
  | [] => ([], none)
  | m :: rest =>
    if oversized maxSize m then ([], some .protocolViolation)
    else
      let r := relayMessages maxSize rest
      (m :: r.1, r.2)

/-! ## Client Proxy Chain

Modelled from the spec: `client_proxy_chain` is declared in `lib.rs` but
its body is not in the provided sources.  Spec §4.5: hops are established
sequentially, a failure at hop `k` aborts immediately with an error
naming hop `k` and its failure class, and the caller gets either a fully
negotiated stream or an error. -/

/-- Modelled from the spec: the failure classes of hop establishment
(connect, handshake/auth, timeout). -/
inductive FailClass
  | connectFail
  | handshakeAuth
  | timeoutFail
deriving DecidableEq, Repr

/-- Modelled from the spec: the error surfaced by a failed chain
establishment, identifying the failing hop and its failure class. -/
structure ChainError where
  hopIndex : Nat
  failClass : FailClass
deriving DecidableEq, Repr

/-- Modelled from the spec: one upstream proxy leg within a Chain,
immutable once loaded; its protocol/address/credential parameters are
abstracted to an endpoint id. -/
structure Hop where
  endpoint : Nat
deriving DecidableEq, Repr

/-- Modelled from the spec: establish the remaining hops of a chain
sequentially from hop index `k`, threading the connection state through
each hop's connect-and-handshake `attempt`: hop `k+1` starts only after
hop `k` succeeded, and the first failure aborts at once with the failing
hop's index and class. -/
def establishFrom {α : Type} (attempt : α → Hop → Except FailClass α)
    (k : Nat) (c : α) : List Hop → Except ChainError α
  | [] => .ok c
  | h :: rest =>
    match attempt c h with
    | .error f => .error ⟨k, f⟩
    | .ok c2 => establishFrom attempt (k + 1) c2 rest

/-- Modelled from the spec: `establish(target)` of a Chain starts from the
initial connection state and negotiates the hops in order, returning a
fully negotiated stream or a `ChainError`. -/
def establish {α : Type} (attempt : α → Hop → Except FailClass α)
    (c0 : α) (hops : List Hop) : Except ChainError α :=
  establishFrom attempt 0 c0 hops

/-- The hops a chain establishment actually attempts a connection to:
every hop up to and including the first failing one. -/
def attemptedHops {α : Type} (attempt : α → Hop → Except FailClass α)
    (c : α) : List Hop → List Hop
  | [] => []
  | h :: rest =>
    match attempt c h with
    | .error _ => [h]
    | .ok c2 => h :: attemptedHops attempt c2 rest

/-- A concrete hop-attempt function used to exercise the chain theorems:
the connection state counts negotiated hops, and the hop with endpoint 2
refuses to connect. -/
def demoAttempt : Nat → Hop → Except FailClass Nat :=
  fun c h => if h.endpoint == 2 then .error .connectFail else .ok (c + 1)

/-! ## Session Manager / session table of a shared transport

Modelled from the spec: `copy_multidirectional_message` and
`copy_session_messages` are declared in `lib.rs` but their bodies are not
in the provided sources.  Spec §4.3/§4.4/§5: session ids are assigned
monotonically or reclaimed from a free list, never reused while live;
the table is bounded by a configured maximum, and a full table rejects
new sessions rather than evicting active ones. -/

/-- Modelled from the spec: the session table of one shared transport —
ids of currently open sessions, the free list of released ids available
for reclaim, the next fresh id for monotonic assignment, and the
configured maximum number of sessions. -/
structure SessionTable where
  sessions : List Nat
  freeList : List Nat
  nextId : Nat
  maxSessions : Nat
deriving DecidableEq, Repr

/-- Modelled from the spec: the empty session table of a freshly opened
shared transport with configured bound `maxSessions`. -/
def initTable (maxSessions : Nat) : SessionTable :=
  ⟨[], [], 0, maxSessions⟩

/-- Modelled from the spec: a session-open request.  When the table has
reached the configured maximum the request fails with
`resourceExhausted` and the table is unchanged (no eviction); otherwise
the new session id is reclaimed from the free list if one is available,
else the next monotonic id is assigned. -/
def openSession (t : SessionTable) : (Except CoreError Nat) × SessionTable :=
  if t.maxSessions ≤ t.sessions.length then (.error .resourceExhausted, t)
  else
    match t.freeList with
    | i :: rest =>
      (.ok i, { t with sessions := i :: t.sessions, freeList := rest })
    | [] =>
      (.ok t.nextId,
       { t with sessions := t.nextId :: t.sessions, nextId := t.nextId + 1 })

/-- Modelled from the spec: closing a session removes its id from the
table and releases the id to the free list; closing an unknown id is a
no-op (close is idempotent). -/
def closeSession (i : Nat) (t : SessionTable) : SessionTable :=
  if i ∈ t.sessions then
    { t with sessions := t.sessions.erase i, freeList := i :: t.freeList }
  else t

/-- Modelled from the spec: one step of the session lifecycle on a shared
transport — a session-open request or a session close. -/
inductive SessionStep : SessionTable → SessionTable → Prop
  | openNew (t : SessionTable) : SessionStep t (openSession t).2
  | closeOld (i : Nat) (t : SessionTable) : SessionStep t (closeSession i t)

/-- The session-table invariant: open-session ids are pairwise distinct,
the free list is duplicate-free, every id ever handed out is below
`nextId`, and no live session's id sits in the free list. -/
def TableInv (t : SessionTable) : Prop :=
  t.sessions.Nodup ∧ t.freeList.Nodup ∧
  (∀ i ∈ t.sessions, i < t.nextId) ∧
  (∀ i ∈ t.freeList, i < t.nextId) ∧
  (∀ i ∈ t.sessions, i ∉ t.freeList)

/-! ## Byte Relay half-close state machine

Modelled from the spec: spec §4.1 — on EOF in one direction, shut down
the write side of the destination but let the opposite direction continue
until it finishes naturally, unless the stream type lacks half-close, in
which case the whole connection closes immediately. -/

/-- The two copy directions of the Byte Relay. -/
inductive Dir
  | aToB
  | bToA
deriving DecidableEq, Repr

/-- The observable state of a Byte Relay run: the chunks each source has
yet to deliver, whether each direction finished, which write sides are
shut down, whether the whole connection has been closed, and the bytes
written to each destination. -/
structure HalfCloseState where
  aPending : List (List Nat)
  bPending : List (List Nat)
  aDone : Bool
  bDone : Bool
  aWriteShut : Bool
  bWriteShut : Bool
  closedAll : Bool
  toB : List Nat
  toA : List Nat
deriving DecidableEq, Repr

/-- Modelled from the spec: one scheduler step of the Byte Relay.  The
scheduled direction reads its next chunk and fully writes it; on EOF it
shuts down the write side of its destination if the stream type supports
half-close (`hc`), letting the opposite direction continue, and
otherwise closes the whole connection immediately.  A closed connection
ignores all further steps. -/
def hcStep (hc : Bool) (d : Dir) (s : HalfCloseState) : HalfCloseState :=
  if s.closedAll then s
  else
    match d with
    | .aToB =>
      if s.aDone then s
      else
        match s.aPending with
        | c :: rest => { s with aPending := rest, toB := s.toB ++ c }
        | [] =>
          if hc then { s with aDone := true, bWriteShut := true }
          else { s with aDone := true, bDone := true, closedAll := true }
    | .bToA =>
      if s.bDone then s
      else
        match s.bPending with
        | c :: rest => { s with bPending := rest, toA := s.toA ++ c }
        | [] =>
          if hc then { s with bDone := true, aWriteShut := true }
          else { s with aDone := true, bDone := true, closedAll := true }

/-- Run the Byte Relay under an explicit schedule of direction steps. -/
def hcRun (hc : Bool) : List Dir → HalfCloseState → HalfCloseState
  | [], s => s
  | d :: rest, s => hcRun hc rest (hcStep hc d s)

/-- The initial relay state for sources delivering chunk lists `a`, `b`. -/
def hcInit (a b : List (List Nat)) : HalfCloseState :=
  ⟨a, b, false, false, false, false, false, [], []⟩

/-- The relay state after stream A has delivered all its chunks and
signalled end-of-stream, under the schedule that runs the A→B direction
first. -/
def aPhaseRun (hc : Bool) (a b : List (List Nat)) : HalfCloseState :=
  hcRun hc (List.replicate (a.length + 1) Dir.aToB) (hcInit a b)

/-- The relay state after, additionally, stream B has delivered all its
chunks and signalled end-of-stream. -/
def fullRun (hc : Bool) (a b : List (List Nat)) : HalfCloseState :=
  hcRun hc (List.replicate (b.length + 1) Dir.bToA) (aPhaseRun hc a b)

end Shoes

namespace Shoes

/-! ## Theorems about `start_server` / `start_servers` -/

/-- Claim C9: for every `ServerConfig` whose transport is `Udp`,
`start_server` returns the error "UDP transport is not yet implemented",
independently of the server-starting environment (so it spawns nothing),
and only the `Tcp` and `Quic` transports can yield join handles. -/
theorem start_server_udp_err (env : StartEnv) (config : ServerConfig)
    (h : config.transport = Transport.Udp) :
    start_server env config = .error ⟨"UDP transport is not yet implemented"⟩ ∧
    (∀ env' : StartEnv, start_server env' config = start_server env config) ∧
    (∀ env' hs, start_server env' config ≠ .ok hs) := by
  refine ⟨?_, ?_, ?_⟩ <;> simp [start_server, h]

/-- Witness for C9 at a concrete UDP config and environment. -/
theorem start_server_udp_err_witness :
    start_server ⟨fun _ => .ok [0], fun _ => .ok [1]⟩ ⟨Transport.Udp⟩ =
      .error ⟨"UDP transport is not yet implemented"⟩ :=
  (start_server_udp_err ⟨fun _ => .ok [0], fun _ => .ok [1]⟩ ⟨Transport.Udp⟩ rfl).1

theorem start_servers_append_ok (env : StartEnv) (pre rest : List ServerConfig)
    (hok : ∀ cfg ∈ pre, ∃ hs, start_server env cfg = .ok hs) :
    start_servers env (pre ++ rest) =
      (match start_servers env rest with
       | .error e => .error e
       | .ok hs2 => .ok (pre.flatMap (fun cfg => okHandles (start_server env cfg)) ++ hs2)) ∧
    spawnedHandles env (pre ++ rest) =
      pre.flatMap (fun cfg => okHandles (start_server env cfg)) ++ spawnedHandles env rest := by
  induction pre with
  | nil =>
    constructor
    · cases h : start_servers env rest <;> simp [h]
    · simp [spawnedHandles]
  | cons c cs ih =>
    obtain ⟨hs, hc⟩ := hok c (by simp)
    have ih' := ih (fun cfg hm => hok cfg (by simp [hm]))
    constructor
    · rw [List.cons_append]
      rw [show start_servers env (c :: (cs ++ rest)) =
        (match start_server env c with
         | .error e => .error e
         | .ok hs =>
           match start_servers env (cs ++ rest) with
           | .error e => .error e
           | .ok hs2 => .ok (hs ++ hs2)) from rfl]
      rw [hc, ih'.1]
      cases h2 : start_servers env rest <;> simp [hc, okHandles, h2]
    · rw [List.cons_append]
      rw [show spawnedHandles env (c :: (cs ++ rest)) =
        (match start_server env c with
         | .error _ => []
         | .ok hs => hs ++ spawnedHandles env (cs ++ rest)) from rfl]
      rw [hc, ih'.2]
      simp [hc, okHandles]

/-- Claim C10: `start_servers` is not atomic — configs are started in slice
order; when `start_server` fails on config `c` after the prefix `pre` of
successful configs, the error is returned immediately (so the handles of
the servers already started for `pre` are discarded, never reaching the
caller), yet those servers were spawned: the spawned-handle log equals
exactly the handles of the successful prefix. -/
theorem start_servers_not_atomic (env : StartEnv) (pre post : List ServerConfig)
    (c : ServerConfig) (e : IoErr)
    (hok : ∀ cfg ∈ pre, ∃ hs, start_server env cfg = .ok hs)
    (hfail : start_server env c = .error e) :
    start_servers env (pre ++ c :: post) = .error e ∧
    spawnedHandles env (pre ++ c :: post) =
      pre.flatMap (fun cfg => okHandles (start_server env cfg)) := by
  have h := start_servers_append_ok env pre (c :: post) hok
  constructor
  · rw [h.1]
    rw [show start_servers env (c :: post) =
      (match start_server env c with
       | .error e => .error e
       | .ok hs =>
         match start_servers env post with
         | .error e => .error e
         | .ok hs2 => .ok (hs ++ hs2)) from rfl]
    rw [hfail]
  · rw [h.2]
    rw [show spawnedHandles env (c :: post) =
      (match start_server env c with
       | .error _ => []
       | .ok hs => hs ++ spawnedHandles env post) from rfl]
    rw [hfail]
    simp

/-- Witness for C10: one TCP config succeeds and spawns handle 7, the UDP
config then fails, a further TCP config is never reached; the result is
the error and the only spawned handle is 7, which the error result does
not carry. -/
theorem start_servers_not_atomic_witness :
    start_servers ⟨fun _ => .ok [7], fun _ => .ok [9]⟩
        ([⟨Transport.Tcp⟩] ++ ⟨Transport.Udp⟩ :: [⟨Transport.Tcp⟩]) =
      .error ⟨"UDP transport is not yet implemented"⟩ ∧
    spawnedHandles ⟨fun _ => .ok [7], fun _ => .ok [9]⟩
        ([⟨Transport.Tcp⟩] ++ ⟨Transport.Udp⟩ :: [⟨Transport.Tcp⟩]) = [7] :=
  start_servers_not_atomic ⟨fun _ => .ok [7], fun _ => .ok [9]⟩
    [⟨Transport.Tcp⟩] [⟨Transport.Tcp⟩] ⟨Transport.Udp⟩
    ⟨"UDP transport is not yet implemented"⟩
    (fun cfg hm => by
      simp at hm
      exact ⟨[7], by rw [hm]; rfl⟩)
    rfl

/-! ## Theorems about the Selector -/

/-- Claim C4: the Selector evaluates rules in configured order and returns
the action of the first rule whose matcher matches the target; if no rule
matches (in particular when no default rule is configured), it rejects.
Being a total function, it resolves to exactly one outcome per request. -/
theorem selectAction_first_match (rules : List Rule) (t : TargetAddr) :
    selectAction rules t =
      (((rules.find? fun r => matcherMatches r.matcher t).map Rule.action).getD
        RuleAction.reject) := by
  induction rules with
  | nil => rfl
  | cons r rest ih =>
    by_cases h : matcherMatches r.matcher t
    · simp [selectAction, h, List.find?_cons_of_pos]
    · rw [List.find?_cons_of_neg _ (by simp [h])]
      simpa [selectAction, h] using ih

/-! ## Theorems about the Byte Relay -/

theorem copyLoop_eq (bufSize : Nat) (hpos : 0 < bufSize) (src : List Nat) :
    copyLoop bufSize hpos src = (src, src.length) := by
  have key : ∀ n src_1 , List.length src_1 = n →
      copyLoop bufSize hpos src_1 = (src_1, src_1.length) := by
    intro n
    induction n using Nat.strong_induction_on with
    | _ n ih =>
      intro src hn
      rw [copyLoop]
      by_cases hs : src = []
      · subst hs; simp
      · have hlen : 0 < src.length := List.length_pos.mpr hs
        have hlt : (src.drop bufSize).length < src.length := by
          simp only [List.length_drop]; omega
        simp only [dif_neg hs]
        rw [ih (src.drop bufSize).length (hn ▸ hlt) _ rfl]
        simp only [Prod.mk.injEq, List.take_append_drop, List.length_take,
          List.length_drop, true_and]
        omega
  exact key src.length src rfl

/-- Claim C1: in an error-free Byte Relay run the bytes written to B are
exactly the bytes read from A (and symmetrically), and the per-direction
counters the relay reports equal the number of bytes transferred. -/
theorem copy_bidirectional_exact (bufSize : Nat) (hpos : 0 < bufSize)
    (aSrc bSrc : List Nat) :
    (copy_bidirectional bufSize hpos aSrc bSrc).writtenToB = aSrc ∧
    (copy_bidirectional bufSize hpos aSrc bSrc).writtenToA = bSrc ∧
    (copy_bidirectional bufSize hpos aSrc bSrc).counters.aToB = aSrc.length ∧
    (copy_bidirectional bufSize hpos aSrc bSrc).counters.bToA = bSrc.length := by
  simp [copy_bidirectional, copyLoop_eq]

/-- Witness for C1 at buffer size 4 and concrete byte lists. -/
theorem copy_bidirectional_exact_witness :
    (copy_bidirectional 4 (by decide) [1, 2, 3, 4, 5] [6, 7]).writtenToB =
        [1, 2, 3, 4, 5] ∧
    (copy_bidirectional 4 (by decide) [1, 2, 3, 4, 5] [6, 7]).writtenToA = [6, 7] ∧
    (copy_bidirectional 4 (by decide) [1, 2, 3, 4, 5] [6, 7]).counters.aToB = 5 ∧
    (copy_bidirectional 4 (by decide) [1, 2, 3, 4, 5] [6, 7]).counters.bToA = 2 :=
  copy_bidirectional_exact 4 (by decide) [1, 2, 3, 4, 5] [6, 7]

/-! ## Theorems about the Message Relay -/

/-- Claim C2: every sequence of messages within the configured maximum is
delivered in the same order, byte-identical and with boundaries preserved
(the delivered list is literally the sent list: nothing is coalesced or
split), with no error. -/
theorem relayMessages_preserves (maxSize : Option Nat) (msgs : List (List Nat))
    (h : ∀ m ∈ msgs, oversized maxSize m = false) :
    relayMessages maxSize msgs = (msgs, none) := by
  induction msgs with
  | nil => rfl
  | cons m rest ih =>
    simp [relayMessages, h m (by simp), ih (fun x hx => h x (by simp [hx]))]

/-- Witness for C2: three messages within a maximum of 3 bytes. -/
theorem relayMessages_preserves_witness :
    relayMessages (some 3) [[1, 2], [3], [4, 5, 6]] =
      ([[1, 2], [3], [4, 5, 6]], none) :=
  relayMessages_preserves (some 3) [[1, 2], [3], [4, 5, 6]] (by decide)

/-- Claim C8: receiving a message exceeding the configured maximum aborts
the relay with a `protocolViolation`; only the messages before it are
delivered — the oversized message is neither forwarded nor buffered. -/
theorem relayMessages_oversize_aborts (mx : Nat) (pre post : List (List Nat))
    (m : List Nat)
    (hpre : ∀ x ∈ pre, oversized (some mx) x = false)
    (hm : oversized (some mx) m = true) :
    relayMessages (some mx) (pre ++ m :: post) =
      (pre, some CoreError.protocolViolation) := by
  induction pre with
  | nil => simp [relayMessages, hm]
  | cons p ps ih =>
    simp [relayMessages, hpre p (by simp), ih (fun x hx => hpre x (by simp [hx]))]

/-- Witness for C8: a 3-byte message over a 2-byte maximum aborts after
the first message. -/
theorem relayMessages_oversize_aborts_witness :
    relayMessages (some 2) ([[1]] ++ [1, 2, 3] :: [[9]]) =
      ([[1]], some CoreError.protocolViolation) :=
  relayMessages_oversize_aborts 2 [[1]] [[9]] [1, 2, 3] (by decide) (by decide)

/-! ## Theorems about the Client Proxy Chain -/

theorem establishFrom_error_attempts {α : Type}
    (attempt : α → Hop → Except FailClass α) (hops : List Hop) :
    ∀ (i : Nat) (c0 : α) (k : Nat) (f : FailClass),
      establishFrom attempt i c0 hops = .error ⟨k, f⟩ →
      i ≤ k ∧ k - i < hops.length ∧
      attemptedHops attempt c0 hops = hops.take (k - i + 1) := by
  induction hops with
  | nil =>
    intro i c0 k f h
    simp [establishFrom] at h
  | cons h rest ih =>
    intro i c0 k f he
    have he2 : (match attempt c0 h with
        | .error f => (.error ⟨i, f⟩ : Except ChainError α)
        | .ok c2 => establishFrom attempt (i + 1) c2 rest) = .error ⟨k, f⟩ := he
    cases ha : attempt c0 h with
    | error f2 =>
      rw [ha] at he2
      simp only [Except.error.injEq, ChainError.mk.injEq] at he2
      obtain ⟨hik, hf⟩ := he2
      subst hik
      refine ⟨Nat.le_refl i, by simp, ?_⟩
      simp [attemptedHops, ha]
    | ok c2 =>
      rw [ha] at he2
      obtain ⟨h1, h2, h3⟩ := ih (i + 1) c2 k f he2
      have harith : k - (i + 1) + 1 = k - i := by omega
      refine ⟨by omega, by simp only [List.length_cons]; omega, ?_⟩
      have hki : k - i = (k - (i + 1)) + 1 := by omega
      rw [hki]
      simp [attemptedHops, ha, h3, harith]

theorem establishFrom_ok_attempts {α : Type}
    (attempt : α → Hop → Except FailClass α) (hops : List Hop) :
    ∀ (i : Nat) (c0 c : α), establishFrom attempt i c0 hops = .ok c →
      attemptedHops attempt c0 hops = hops := by
  induction hops with
  | nil =>
    intro i c0 c _
    simp [attemptedHops]
  | cons h rest ih =>
    intro i c0 c he
    have he2 : (match attempt c0 h with
        | .error f => (.error ⟨i, f⟩ : Except ChainError α)
        | .ok c2 => establishFrom attempt (i + 1) c2 rest) = .ok c := he
    cases ha : attempt c0 h with
    | error f2 =>
      rw [ha] at he2
      simp at he2
    | ok c2 =>
      rw [ha] at he2
      simp [attemptedHops, ha, ih (i + 1) c2 c he2]

/-- Claim C3: chain establishment is sequential and atomic.  When it
fails with an error naming hop `k`, then `k` is a valid hop index and
connections were attempted exactly at hops `0..k` — no hop after `k` is
ever contacted — and no partial chain is returned (the result is the
error alone); on success every hop was negotiated and the caller gets
the fully negotiated stream. -/
theorem chain_establish_atomic {α : Type}
    (attempt : α → Hop → Except FailClass α) (c0 : α) (hops : List Hop) :
    (∀ k f, establish attempt c0 hops = .error ⟨k, f⟩ →
      k < hops.length ∧ attemptedHops attempt c0 hops = hops.take (k + 1)) ∧
    (∀ c, establish attempt c0 hops = .ok c →
      attemptedHops attempt c0 hops = hops) := by
  constructor
  · intro k f he
    obtain ⟨h1, h2, h3⟩ := establishFrom_error_attempts attempt hops 0 c0 k f he
    exact ⟨by omega, by simpa using h3⟩
  · intro c hc
    exact establishFrom_ok_attempts attempt hops 0 c0 c hc

/-- Witness for C3, the spec's own scenario: a 3-hop chain whose hop at
index 1 fails to connect surfaces hop index 1, a valid index, and only
the first two hops were contacted — hop 3 never. -/
theorem chain_establish_atomic_witness :
    1 < ([⟨1⟩, ⟨2⟩, ⟨3⟩] : List Hop).length ∧
    attemptedHops demoAttempt 0 [⟨1⟩, ⟨2⟩, ⟨3⟩] =
      ([⟨1⟩, ⟨2⟩, ⟨3⟩] : List Hop).take 2 :=
  (chain_establish_atomic demoAttempt 0 [⟨1⟩, ⟨2⟩, ⟨3⟩]).1 1 .connectFail rfl

/-! ## Theorems about the session table -/

theorem openSession_of_full (t : SessionTable)
    (h : t.maxSessions ≤ t.sessions.length) :
    openSession t = (.error .resourceExhausted, t) := by
  rw [openSession, if_pos h]

theorem openSession_of_reclaim (t : SessionTable) (j : Nat) (rest : List Nat)
    (hfull : ¬t.maxSessions ≤ t.sessions.length) (hfl : t.freeList = j :: rest) :
    openSession t =
      (.ok j, { t with sessions := j :: t.sessions, freeList := rest }) := by
  rw [openSession, if_neg hfull, hfl]

theorem openSession_of_fresh (t : SessionTable)
    (hfull : ¬t.maxSessions ≤ t.sessions.length) (hfl : t.freeList = []) :
    openSession t =
      (.ok t.nextId,
       { t with sessions := t.nextId :: t.sessions, nextId := t.nextId + 1 }) := by
  rw [openSession, if_neg hfull, hfl]

theorem tableInv_init (m : Nat) : TableInv (initTable m) := by
  refine ⟨?_, ?_, ?_, ?_, ?_⟩ <;> simp [initTable]

theorem tableInv_step (t t' : SessionTable) (hinv : TableInv t)
    (hs : SessionStep t t') : TableInv t' := by
  obtain ⟨hnd, hfnd, hsb, hfb, hdisj⟩ := hinv
  cases hs with
  | openNew t =>
    by_cases hfull : t.maxSessions ≤ t.sessions.length
    · rw [openSession_of_full t hfull]
      exact ⟨hnd, hfnd, hsb, hfb, hdisj⟩
    · cases hfl : t.freeList with
      | nil =>
        rw [openSession_of_fresh t hfull hfl]
        show TableInv
          { t with sessions := t.nextId :: t.sessions, nextId := t.nextId + 1 }
        refine ⟨?_, ?_, ?_, ?_, ?_⟩
        · refine List.nodup_cons.mpr ⟨?_, hnd⟩
          intro hmem
          exact absurd (hsb _ hmem) (lt_irrefl _)
        · exact hfnd
        · intro i hi
          rcases List.mem_cons.mp hi with h | h
          · rw [h]; exact Nat.lt_succ_self _
          · exact Nat.lt_trans (hsb i h) (Nat.lt_succ_self _)
        · intro i hi
          exact Nat.lt_trans (hfb i hi) (Nat.lt_succ_self _)
        · intro i hi
          rw [hfl]
          simp
      | cons j rest =>
        rw [openSession_of_reclaim t j rest hfull hfl]
        show TableInv { t with sessions := j :: t.sessions, freeList := rest }
        have hjf : j ∈ t.freeList := by rw [hfl]; simp
        have hflnd : (j :: rest).Nodup := hfl ▸ hfnd
        have hjrest : j ∉ rest := (List.nodup_cons.mp hflnd).1
        have hrestnd : rest.Nodup := (List.nodup_cons.mp hflnd).2
        refine ⟨?_, hrestnd, ?_, ?_, ?_⟩
        · refine List.nodup_cons.mpr ⟨?_, hnd⟩
          intro hmem
          exact hdisj j hmem hjf
        · intro i hi
          rcases List.mem_cons.mp hi with h | h
          · rw [h]; exact hfb j hjf
          · exact hsb i h
        · intro i hi
          exact hfb i (by rw [hfl]; exact List.mem_cons_of_mem j hi)
        · intro i hi
          rcases List.mem_cons.mp hi with h | h
          · rw [h]; exact hjrest
          · intro hir
            exact hdisj i h (by rw [hfl]; exact List.mem_cons_of_mem j hir)
  | closeOld i t =>
    rw [closeSession]
    by_cases hmem : i ∈ t.sessions
    · rw [if_pos hmem]
      refine ⟨hnd.erase i, ?_, ?_, ?_, ?_⟩
      · exact List.nodup_cons.mpr ⟨hdisj i hmem, hfnd⟩
      · intro x hx
        exact hsb x (List.mem_of_mem_erase hx)
      · intro x hx
        rcases List.mem_cons.mp hx with h | h
        · rw [h]; exact hsb i hmem
        · exact hfb x h
      · intro x hx hxm
        have hxs : x ∈ t.sessions := List.mem_of_mem_erase hx
        rcases List.mem_cons.mp hxm with h | h
        · rw [h] at hx
          exact hnd.not_mem_erase hx
        · exact hdisj x hxs h
    · rw [if_neg hmem]
      exact ⟨hnd, hfnd, hsb, hfb, hdisj⟩

theorem tableInv_reachable (m : Nat) (t : SessionTable)
    (h : Relation.ReflTransGen SessionStep (initTable m) t) : TableInv t := by
  induction h with
  | refl => exact tableInv_init m
  | tail _hab hbc ih => exact tableInv_step _ _ ih hbc

/-- Claim C7: in every reachable state of the session lifecycle of one
shared transport, the ids of concurrently open sessions are pairwise
distinct — whether a new id is assigned monotonically or reclaimed from
the free list, it is never one held by a live session. -/
theorem session_ids_distinct (m : Nat) (t : SessionTable)
    (h : Relation.ReflTransGen SessionStep (initTable m) t) :
    t.sessions.Nodup :=
  (tableInv_reachable m t h).1

/-- Witness for C7: the state reached by two session opens on a fresh
transport with bound 2 has pairwise-distinct session ids. -/
theorem session_ids_distinct_witness :
    ((openSession (openSession (initTable 2)).2).2).sessions.Nodup :=
  session_ids_distinct 2 _
    (Relation.ReflTransGen.tail
      (Relation.ReflTransGen.single (SessionStep.openNew (initTable 2)))
      (SessionStep.openNew (openSession (initTable 2)).2))

/-- Claim C6: once the session table of a shared transport has reached
the configured maximum, a session-open request fails with
`resourceExhausted` and the table is returned unchanged — no active
session is evicted and all existing sessions are unaffected. -/
theorem openSession_rejects_when_full (t : SessionTable)
    (h : t.maxSessions ≤ t.sessions.length) :
    openSession t = (.error CoreError.resourceExhausted, t) :=
  openSession_of_full t h

/-- Witness for C6: a table holding its maximum of two sessions rejects
a further open and is unchanged. -/
theorem openSession_rejects_when_full_witness :
    openSession ⟨[0, 1], [], 2, 2⟩ =
      (.error CoreError.resourceExhausted, (⟨[0, 1], [], 2, 2⟩ : SessionTable)) :=
  openSession_rejects_when_full ⟨[0, 1], [], 2, 2⟩ (by decide)

/-! ## Theorems about Byte Relay half-close -/

theorem hcRun_append (hc : Bool) (l1 l2 : List Dir) (s : HalfCloseState) :
    hcRun hc (l1 ++ l2) s = hcRun hc l2 (hcRun hc l1 s) := by
  induction l1 generalizing s with
  | nil => rfl
  | cons d rest ih => simp [hcRun, ih]

theorem hcRun_closed (hc : Bool) (sched : List Dir) :
    ∀ s : HalfCloseState, s.closedAll = true → hcRun hc sched s = s := by
  induction sched with
  | nil => intro s _; rfl
  | cons d rest ih =>
    intro s h
    have hstep : hcStep hc d s = s := by rw [hcStep.eq_def, if_pos h]
    rw [hcRun, hstep]
    exact ih s h

theorem hcRun_aPhase (hc : Bool) (a : List (List Nat)) :
    ∀ (bP : List (List Nat)) (bD aWS bWS : Bool) (tB tA : List Nat),
      hcRun hc (List.replicate a.length Dir.aToB)
        ⟨a, bP, false, bD, aWS, bWS, false, tB, tA⟩ =
      ⟨[], bP, false, bD, aWS, bWS, false, tB ++ a.flatten, tA⟩ := by
  induction a with
  | nil =>
    intro bP bD aWS bWS tB tA
    simp [hcRun]
  | cons c cs ih =>
    intro bP bD aWS bWS tB tA
    rw [List.length_cons, List.replicate_succ, hcRun]
    have hstep : hcStep hc Dir.aToB ⟨c :: cs, bP, false, bD, aWS, bWS, false, tB, tA⟩ =
        ⟨cs, bP, false, bD, aWS, bWS, false, tB ++ c, tA⟩ := rfl
    rw [hstep, ih]
    simp

theorem hcRun_bPhase (hc : Bool) (b : List (List Nat)) :
    ∀ (aP : List (List Nat)) (aD aWS bWS : Bool) (tB tA : List Nat),
      hcRun hc (List.replicate b.length Dir.bToA)
        ⟨aP, b, aD, false, aWS, bWS, false, tB, tA⟩ =
      ⟨aP, [], aD, false, aWS, bWS, false, tB, tA ++ b.flatten⟩ := by
  induction b with
  | nil =>
    intro aP aD aWS bWS tB tA
    simp [hcRun]
  | cons c cs ih =>
    intro aP aD aWS bWS tB tA
    rw [List.length_cons, List.replicate_succ, hcRun]
    have hstep : hcStep hc Dir.bToA ⟨aP, c :: cs, aD, false, aWS, bWS, false, tB, tA⟩ =
        ⟨aP, cs, aD, false, aWS, bWS, false, tB, tA ++ c⟩ := rfl
    rw [hstep, ih]
    simp

theorem aPhaseRun_eq (hc : Bool) (a b : List (List Nat)) :
    aPhaseRun hc a b =
      hcStep hc Dir.aToB ⟨[], b, false, false, false, false, false, a.flatten, []⟩ := by
  rw [aPhaseRun, List.replicate_succ', hcRun_append,
    show hcInit a b = ⟨a, b, false, false, false, false, false, [], []⟩ from rfl,
    hcRun_aPhase]
  simp [hcRun]

/-- Claim C5: under the schedule where stream A reaches end-of-stream
first, a half-close-capable Byte Relay shuts down only the write side of
B (A's write side stays open and the connection stays open), having
delivered all of A's bytes, and the B→A direction keeps copying until B
itself ends, delivering all of B's bytes; without half-close support the
whole connection closes immediately at A's EOF — nothing of B is
delivered and every further step is ignored. -/
theorem byte_relay_half_close (a b : List (List Nat)) :
    (aPhaseRun true a b).bWriteShut = true ∧
    (aPhaseRun true a b).aWriteShut = false ∧
    (aPhaseRun true a b).closedAll = false ∧
    (aPhaseRun true a b).toB = a.flatten ∧
    (fullRun true a b).toA = b.flatten ∧
    (fullRun true a b).closedAll = false ∧
    (aPhaseRun false a b).closedAll = true ∧
    (aPhaseRun false a b).toA = [] ∧
    (∀ sched, hcRun false sched (aPhaseRun false a b) = aPhaseRun false a b) := by
  have hAtrue : aPhaseRun true a b =
      ⟨[], b, true, false, false, true, false, a.flatten, []⟩ := by
    rw [aPhaseRun_eq]; rfl
  have hAfalse : aPhaseRun false a b =
      ⟨[], b, true, true, false, false, true, a.flatten, []⟩ := by
    rw [aPhaseRun_eq]; rfl
  have hFull : fullRun true a b =
      hcStep true Dir.bToA ⟨[], [], true, false, false, true, false, a.flatten, b.flatten⟩ := by
    rw [fullRun, hAtrue, List.replicate_succ', hcRun_append, hcRun_bPhase]
    simp [hcRun]
  have hFull2 : fullRun true a b =
      ⟨[], [], true, true, true, true, false, a.flatten, b.flatten⟩ := by
    rw [hFull]; rfl
  refine ⟨by rw [hAtrue], by rw [hAtrue], by rw [hAtrue], by rw [hAtrue],
    by rw [hFull2], by rw [hFull2], by rw [hAfalse], by rw [hAfalse], ?_⟩
  intro sched
  exact hcRun_closed false sched _ (by rw [hAfalse])

end Shoes
